import Mathlib

/-
Verification of productive_new_editors.py: a script that classifies newly
registered wiki users as "productive" (at least n non-reverted main-namespace
edits within t days of registration) and prints a TSV report.

The embedding models the script's `run` function and its helpers directly.
External collaborators (the MySQL data source and the revert-detection
library `mw.lib.reverts`) are not part of this repository's source; they are
modelled as abstract components (fields of `DB`, a parsing parameter, and a
spec-modelled detector `is_reverted`).
-/

namespace PNE

/-- Number of seconds in a day (source constant DAY_SECONDS = 60*60*24). -/
def DAY_SECONDS : Nat := 60 * 60 * 24

/-- One revision row as consumed by `run`: a timestamp (modelled as unix
seconds, the arithmetic used by the source's Timestamp objects) and the
page namespace of the edited page. -/
structure RevRow where
  rev_timestamp : Nat
  page_namespace : Int
deriving DecidableEq

/-- One user row as returned by the user query: id, name and the raw
registration timestamp text (decoded from bytes). -/
structure UserRow where
  user_id : Nat
  user_name : List Char
  user_registration : List Char
deriving DecidableEq

/-- Modelled from the spec: the RevertRecord produced by the external Revert
Detector; `run` only tests the result against null, so its payload is opaque
here. -/
structure RevertRecord where
  reverting_id : Nat
deriving DecidableEq

/-- Modelled from the spec: the external data source and revert checker.
`usersBetween` is the query for users registered in [start, end];
`userRevisions` is a user's full time-ordered revision history (the `before`
bound of the revision query is applied by `queriedRevisions` below, per the
data-source contract); `checkRow` is `reverts.database.check_row` given a
revision, a radius and a cutoff timestamp. -/
structure DB where
  usersBetween : Nat → Nat → List UserRow
  userRevisions : Nat → List RevRow
  checkRow : RevRow → Nat → Nat → Option RevertRecord

/-- Replace every occurrence of the character `t` in a string by the
replacement `rep` (the semantics of Python's `str.replace` for a
single-character needle). -/
def replaceChar (t : Char) (rep : List Char) : List Char → List Char
  | [] => []
  | c :: cs => (if c = t then rep else [c]) ++ replaceChar t rep cs

/-- Source `escape`: escapes a string for inclusion in a TSV file by
replacing tabs and then newlines with their two-character escapes. -/
def escape (s : List Char) : List Char :=
  replaceChar '\n' ['\\', 'n'] (replaceChar '\t' ['\\', 't'] s)

/-- Python's `str` of a boolean: the literal text True or False. -/
def pyBool (b : Bool) : List Char :=
  if b then ['T', 'r', 'u', 'e'] else ['F', 'a', 'l', 's', 'e']

/-- Decimal digit character for d < 10. -/
def digitChar (d : Nat) : Char := Char.ofNat (48 + d)

/-- Fuel-driven accumulator rendering of a natural number in decimal. -/
def natCharsAux : Nat → Nat → List Char → List Char
  | 0, _, acc => acc
  | fuel + 1, n, acc =>
    if n < 10 then digitChar (n % 10) :: acc
    else natCharsAux fuel (n / 10) (digitChar (n % 10) :: acc)

/-- Python's `str` of a natural number: its decimal digits. -/
def natChars (n : Nat) : List Char := natCharsAux (n + 1) n []

/-- Model of `"\t".join(fields)`. -/
def joinTabs : List (List Char) → List Char
  | [] => []
  | [f] => f
  | f :: fs => f ++ '\t' :: joinTabs fs

/-- The header line printed by `run` before any user is processed. -/
def headerLine : List Char :=
  joinTabs [ "user_id".toList, "user_name".toList, "user_registration".toList,
             "productive".toList, "censored".toList]

/-- The per-user revision loop of `run` (source lines 105-131), instrumented:
given the queried revisions and the running counter, it returns the final
`productive_edits` counter together with the list of calls made to the revert
checker, each recorded as (revision, radius, cutoff). Non-content revisions
are skipped; a null check result increments the counter; the loop breaks as
soon as the counter reaches n. -/
def revLoop (db : DB) (n : Nat) : List RevRow → Nat → Nat × List (RevRow × Nat × Nat)
  | [], c => (c, [])
  | r :: rs, c =>
    if r.page_namespace = 0 then
      match db.checkRow r 15 (r.rev_timestamp + DAY_SECONDS * 2) with
      | none =>
        if n ≤ c + 1 then (c + 1, [(r, 15, r.rev_timestamp + DAY_SECONDS * 2)])
        else ((revLoop db n rs (c + 1)).1,
              (r, 15, r.rev_timestamp + DAY_SECONDS * 2) :: (revLoop db n rs (c + 1)).2)
      | some _ =>
        ((revLoop db n rs c).1,
         (r, 15, r.rev_timestamp + DAY_SECONDS * 2) :: (revLoop db n rs c).2)
    else revLoop db n rs c

/-- A revision is counted by the loop body exactly when it is a main-namespace
edit whose revert check (radius 15, cutoff two days after its timestamp)
returns null. -/
def isCounted (db : DB) (r : RevRow) : Bool :=
  decide (r.page_namespace = 0) &&
    (db.checkRow r 15 (r.rev_timestamp + DAY_SECONDS * 2)).isNone

/-- The revision query of source line 98: the user's revisions strictly
before registration + t days. -/
def queriedRevisions (db : DB) (uid reg t : Nat) : List RevRow :=
  (db.userRevisions uid).filter (fun r => decide (r.rev_timestamp < reg + DAY_SECONDS * t))

/-- The five fields computed for one user's output row (source lines 133-140):
productive is `productive_edits >= n`, censored is
`time.time() - user_registration.unix() < (2+t)*DAY_SECONDS` with wall-clock
time `now` modelled in integer seconds. -/
structure OutputRow where
  user_id : Nat
  user_name : List Char
  user_registration : List Char
  productive : Bool
  censored : Bool

/-- Classification of one user whose registration parsed to `reg`. -/
def classifyUser (db : DB) (t n : Nat) (now : Int) (u : UserRow) (reg : Nat) : OutputRow :=
  { user_id := u.user_id
    user_name := u.user_name
    user_registration := u.user_registration
    productive := decide (n ≤ (revLoop db n (queriedRevisions db u.user_id reg t) 0).1)
    censored := decide (now - (reg : Int) < (((2 + t) * DAY_SECONDS : Nat) : Int)) }

/-- Rendering of one output row: tab-joined fields, text fields escaped,
booleans as True/False (source lines 133-141). -/
def renderRow (r : OutputRow) : List Char :=
  joinTabs [natChars r.user_id, escape r.user_name, escape r.user_registration,
            pyBool r.productive, pyBool r.censored]

/-- The per-user loop of `run`: emits one rendered line per user; a user whose
raw registration timestamp fails to parse raises, which aborts the loop with
the error surfaced (no handler exists in the source), so the result is the
lines emitted so far plus an optional error carrying the offending text. -/
def processUsers (db : DB) (parseTS : List Char → Option Nat) (t n : Nat) (now : Int) :
    List UserRow → List (List Char) × Option (List Char)
  | [] => ([], none)
  | u :: us =>
    match parseTS u.user_registration with
    | none => ([], some u.user_registration)
    | some reg =>
      ((renderRow (classifyUser db t n now u reg)) :: (processUsers db parseTS t n now us).1,
       (processUsers db parseTS t n now us).2)

/-- Source `run`: print the header, query the users registered in the window,
and process each one. -/
def run (db : DB) (parseTS : List Char → Option Nat)
    (start_date end_date n t : Nat) (now : Int) : List (List Char) × Option (List Char) :=
  (headerLine :: (processUsers db parseTS t n now (db.usersBetween start_date end_date)).1,
   (processUsers db parseTS t n now (db.usersBetween start_date end_date)).2)

/-- The line produced for a single user (empty when its timestamp fails to
parse; that case never arises under the hypotheses where this is used). -/
def rowFor (db : DB) (parseTS : List Char → Option Nat) (t n : Nat) (now : Int)
    (u : UserRow) : List Char :=
  match parseTS u.user_registration with
  | some reg => renderRow (classifyUser db t n now u reg)
  | none => []

/-- Modelled from the spec: timestamp parsing (the external library's
Timestamp constructor), which fails on unparsable input. This concrete
stand-in accepts non-empty strings of decimal digits. -/
def parseDigits : List Char → Option Nat
  | [] => none
  | cs => go cs 0
where
  go : List Char → Nat → Option Nat
    | [], acc => some acc
    | c :: cs, acc =>
      if 48 ≤ c.toNat ∧ c.toNat ≤ 57 then go cs (acc * 10 + (c.toNat - 48))
      else none

/-- Modelled from the spec: a revision in the Revert Detector's lookahead
window, carrying its timestamp and an opaque comparable content state. -/
structure WRev where
  timestamp : Nat
  state : Nat
deriving DecidableEq

/-- Modelled from the spec: the identity-chain Revert Detector
(`mw.lib.reverts`, not part of this repository's source). Given the content
states that existed strictly before the candidate edit, walk forward through
the window of subsequent revisions, at most `radius` of them and only while
the deadline is not exceeded; the first revision whose resulting state
matches an ancestor state is returned as the revert, else null. -/
def is_reverted (anc : List Nat) : List WRev → Nat → Nat → Option WRev
  | [], _, _ => none
  | _ :: _, 0, _ => none
  | r :: rs, radius + 1, deadline =>
    if deadline < r.timestamp then none
    else if r.state ∈ anc then some r
    else is_reverted anc rs radius deadline

/-! Helper lemmas about the revision loop. -/

/-- The counter reaches n exactly when the queried list holds at least n
counted revisions (saturation: early exit does not change the threshold
test). -/
theorem revLoop_sat (db : DB) (n : Nat) (rs : List RevRow) :
    ∀ c : Nat, n ≤ (revLoop db n rs c).1 ↔ n ≤ c + rs.countP (isCounted db) := by
  induction rs with
  | nil => intro c; simp [revLoop]
  | cons r rs ih =>
    intro c
    by_cases hns : r.page_namespace = 0
    · cases hcheck : db.checkRow r 15 (r.rev_timestamp + DAY_SECONDS * 2) with
      | none =>
        by_cases hbreak : n ≤ c + 1
        · simp only [revLoop, hns, if_true, hcheck, hbreak, List.countP_cons,
            isCounted, Option.isNone, decide_eq_true_eq]
          simp [hns, hcheck]
          omega
        · simp only [revLoop, hns, if_true, hcheck, if_neg hbreak, List.countP_cons, isCounted]
          rw [ih (c + 1)]
          simp [hns, hcheck]
          omega
      | some rec =>
        simp only [revLoop, hns, if_true, hcheck, List.countP_cons, isCounted]
        rw [ih c]
        simp [hns, hcheck]
    · simp only [revLoop, if_neg hns, List.countP_cons, isCounted]
      rw [ih c]
      simp [hns]

/-- Starting strictly below n, the counter never exceeds n. -/
theorem revLoop_le (db : DB) (n : Nat) (rs : List RevRow) :
    ∀ c : Nat, c < n → (revLoop db n rs c).1 ≤ n := by
  induction rs with
  | nil => intro c hc; simpa [revLoop] using Nat.le_of_lt hc
  | cons r rs ih =>
    intro c hc
    by_cases hns : r.page_namespace = 0
    · cases hcheck : db.checkRow r 15 (r.rev_timestamp + DAY_SECONDS * 2) with
      | none =>
        by_cases hbreak : n ≤ c + 1
        · simp only [revLoop, hns, if_true, hcheck, hbreak, if_true]
          omega
        · simp only [revLoop, hns, if_true, hcheck, if_neg hbreak]
          exact ih (c + 1) (by omega)
      | some rec =>
        simp only [revLoop, hns, if_true, hcheck]
        exact ih c hc
    · simp only [revLoop, if_neg hns]
      exact ih c hc

/-- Once a prefix already holds n counted revisions, any suffix is
irrelevant: the loop neither counts nor evaluates anything beyond that
prefix. -/
theorem revLoop_append (db : DB) (n : Nat) (xs : List RevRow) :
    ∀ (ys : List RevRow) (c : Nat), c < n → n ≤ c + xs.countP (isCounted db) →
      revLoop db n (xs ++ ys) c = revLoop db n xs c := by
  induction xs with
  | nil =>
    intro ys c hc hcount
    simp [List.countP_nil] at hcount
    omega
  | cons x xs ih =>
    intro ys c hc hcount
    by_cases hns : x.page_namespace = 0
    · cases hcheck : db.checkRow x 15 (x.rev_timestamp + DAY_SECONDS * 2) with
      | none =>
        by_cases hbreak : n ≤ c + 1
        · simp [revLoop, hns, hcheck, hbreak]
        · have hx : isCounted db x = true := by simp [isCounted, hns, hcheck]
          simp [List.countP_cons, hx] at hcount
          simp only [List.cons_append, revLoop, hns, if_true, hcheck, if_neg hbreak,
            List.append_eq]
          rw [ih ys (c + 1) (by omega) (by omega)]
      | some rec =>
        have hx : isCounted db x = false := by simp [isCounted, hcheck]
        simp [List.countP_cons, hx] at hcount
        simp only [List.cons_append, revLoop, hns, if_true, hcheck, List.append_eq]
        rw [ih ys c hc (by omega)]
    · have hx : isCounted db x = false := by simp [isCounted, hns]
      simp [List.countP_cons, hx] at hcount
      simp only [List.cons_append, revLoop, if_neg hns, List.append_eq]
      exact ih ys c hc (by omega)

/-- Every revision the loop hands to the revert checker comes from the
scanned list. -/
theorem revLoop_calls_mem (db : DB) (n : Nat) (rs : List RevRow) :
    ∀ (c : Nat), ∀ cl ∈ (revLoop db n rs c).2, cl.1 ∈ rs := by
  induction rs with
  | nil => intro c cl hcl; simp [revLoop] at hcl
  | cons r rs ih =>
    intro c cl hcl
    by_cases hns : r.page_namespace = 0
    · cases hcheck : db.checkRow r 15 (r.rev_timestamp + DAY_SECONDS * 2) with
      | none =>
        by_cases hbreak : n ≤ c + 1
        · simp only [revLoop, hns, if_true, hcheck, hbreak, if_true,
            List.mem_singleton] at hcl
          simp [hcl]
        · simp only [revLoop, hns, if_true, hcheck, if_neg hbreak, List.mem_cons] at hcl
          rcases hcl with hcl | hcl
          · simp [hcl]
          · exact List.mem_cons_of_mem r (ih (c + 1) cl hcl)
      | some rec =>
        simp only [revLoop, hns, if_true, hcheck, List.mem_cons] at hcl
        rcases hcl with hcl | hcl
        · simp [hcl]
        · exact List.mem_cons_of_mem r (ih c cl hcl)
    · simp only [revLoop, if_neg hns] at hcl
      exact List.mem_cons_of_mem r (ih c cl hcl)

/-- Every call the loop makes uses radius 15 and a cutoff two days after the
revision's own timestamp. -/
theorem revLoop_calls_shape (db : DB) (n : Nat) (rs : List RevRow) :
    ∀ (c : Nat), ∀ cl ∈ (revLoop db n rs c).2,
      cl.2.1 = 15 ∧ cl.2.2 = cl.1.rev_timestamp + DAY_SECONDS * 2 := by
  induction rs with
  | nil => intro c cl hcl; simp [revLoop] at hcl
  | cons r rs ih =>
    intro c cl hcl
    by_cases hns : r.page_namespace = 0
    · cases hcheck : db.checkRow r 15 (r.rev_timestamp + DAY_SECONDS * 2) with
      | none =>
        by_cases hbreak : n ≤ c + 1
        · simp only [revLoop, hns, if_true, hcheck, hbreak, if_true,
            List.mem_singleton] at hcl
          simp [hcl]
        · simp only [revLoop, hns, if_true, hcheck, if_neg hbreak, List.mem_cons] at hcl
          rcases hcl with hcl | hcl
          · simp [hcl]
          · exact ih (c + 1) cl hcl
      | some rec =>
        simp only [revLoop, hns, if_true, hcheck, List.mem_cons] at hcl
        rcases hcl with hcl | hcl
        · simp [hcl]
        · exact ih c cl hcl
    · simp only [revLoop, if_neg hns] at hcl
      exact ih c cl hcl

/-- The final counter equals the start value plus the number of calls whose
check came back null. -/
theorem revLoop_fst_eq (db : DB) (n : Nat) (rs : List RevRow) :
    ∀ c : Nat, (revLoop db n rs c).1 =
      c + (revLoop db n rs c).2.countP
            (fun cl => (db.checkRow cl.1 cl.2.1 cl.2.2).isNone) := by
  induction rs with
  | nil => intro c; simp [revLoop]
  | cons r rs ih =>
    intro c
    by_cases hns : r.page_namespace = 0
    · cases hcheck : db.checkRow r 15 (r.rev_timestamp + DAY_SECONDS * 2) with
      | none =>
        by_cases hbreak : n ≤ c + 1
        · simp [revLoop, hns, hcheck, hbreak]
        · simp only [revLoop, hns, if_true, hcheck, if_neg hbreak, List.countP_cons]
          rw [ih (c + 1)]
          simp [hcheck]
          omega
      | some rec =>
        simp only [revLoop, hns, if_true, hcheck, List.countP_cons]
        rw [ih c]
        simp [hcheck]
    · simp only [revLoop, if_neg hns]
      exact ih c

/-- A list with no main-namespace revision leaves the loop untouched: no
counting and no checker calls. -/
theorem revLoop_nonContent (db : DB) (n : Nat) (rs : List RevRow) :
    ∀ c : Nat, (∀ r ∈ rs, ¬ r.page_namespace = 0) → revLoop db n rs c = (c, []) := by
  induction rs with
  | nil => intro c _; rfl
  | cons r rs ih =>
    intro c h
    have hns : ¬ r.page_namespace = 0 := h r (List.mem_cons_self r rs)
    simp only [revLoop, if_neg hns]
    exact ih c (fun x hx => h x (List.mem_cons_of_mem r hx))

/-! Helper lemmas about escaping and field splitting. -/

/-- Character-for-character escape map: tab and newline become their
two-character escapes, everything else is kept. -/
def escChar (c : Char) : List Char :=
  if c = '\t' then ['\\', 't'] else if c = '\n' then ['\\', 'n'] else [c]

/-- Split a rendered line at tab characters. -/
def splitTab : List Char → List (List Char)
  | [] => [[]]
  | c :: cs =>
    match splitTab cs with
    | [] => [[c]]
    | f :: fs => if c = '\t' then [] :: f :: fs else (c :: f) :: fs

theorem replaceChar_append (t : Char) (rep : List Char) (a b : List Char) :
    replaceChar t rep (a ++ b) = replaceChar t rep a ++ replaceChar t rep b := by
  induction a with
  | nil => rfl
  | cons x a ih => simp [replaceChar, ih]

theorem mem_replaceChar {c t : Char} {rep s : List Char}
    (h : c ∈ replaceChar t rep s) : c ∈ rep ∨ c ∈ s := by
  induction s with
  | nil => simp [replaceChar] at h
  | cons x s ih =>
    simp only [replaceChar, List.mem_append] at h
    rcases h with h | h
    · by_cases hx : x = t
      · rw [if_pos hx] at h
        exact Or.inl h
      · rw [if_neg hx] at h
        simp only [List.mem_singleton] at h
        exact Or.inr (by simp [h])
    · rcases ih h with h1 | h1
      · exact Or.inl h1
      · exact Or.inr (List.mem_cons_of_mem x h1)

theorem not_mem_replaceChar {t : Char} {rep : List Char} (hrep : t ∉ rep)
    (s : List Char) : t ∉ replaceChar t rep s := by
  induction s with
  | nil => simp [replaceChar]
  | cons x s ih =>
    simp only [replaceChar, List.mem_append]
    intro h
    rcases h with h | h
    · by_cases hx : x = t
      · rw [if_pos hx] at h
        exact hrep h
      · rw [if_neg hx] at h
        simp only [List.mem_singleton] at h
        exact hx (h.symm)
    · exact ih h

theorem replaceChar_eq_self {t : Char} {rep s : List Char} (h : t ∉ s) :
    replaceChar t rep s = s := by
  induction s with
  | nil => rfl
  | cons x s ih =>
    have hx : ¬ x = t := fun hxt => h (by simp [hxt])
    simp only [replaceChar, if_neg hx, List.singleton_append]
    rw [ih (fun hm => h (List.mem_cons_of_mem x hm))]

/-- An escaped string never contains a literal tab. -/
theorem tab_not_mem_escape (s : List Char) : '\t' ∉ escape s := by
  intro hmem
  rcases mem_replaceChar hmem with h | h
  · exact absurd h (by decide)
  · exact not_mem_replaceChar (by decide) s h

/-- An escaped string never contains a literal newline. -/
theorem nl_not_mem_escape (s : List Char) : '\n' ∉ escape s :=
  not_mem_replaceChar (by decide) _

/-- The two sequential replacements of `escape` act like a single
character-by-character escaping pass. -/
theorem escape_eq_join (s : List Char) : escape s = (s.map escChar).flatten := by
  induction s with
  | nil => rfl
  | cons c s ih =>
    have hstep : escape (c :: s) =
        replaceChar '\n' ['\\', 'n'] (if c = '\t' then ['\\', 't'] else [c]) ++ escape s := by
      simp only [escape, replaceChar]
      rw [replaceChar_append]
    rw [hstep, List.map_cons, List.flatten_cons, ih]
    congr 1
    by_cases hc : c = '\t'
    · subst hc; decide
    · by_cases hn : c = '\n'
      · subst hn; simp [escChar, replaceChar]
      · simp [escChar, replaceChar, hc, hn]

/-- Escaping an already-escaped string changes nothing. -/
theorem escape_escape (s : List Char) : escape (escape s) = escape s := by
  have h1 : replaceChar '\t' ['\\', 't'] (escape s) = escape s :=
    replaceChar_eq_self (tab_not_mem_escape s)
  have h2 : replaceChar '\n' ['\\', 'n'] (escape s) = escape s :=
    replaceChar_eq_self (nl_not_mem_escape s)
  calc escape (escape s)
      = replaceChar '\n' ['\\', 'n'] (replaceChar '\t' ['\\', 't'] (escape s)) := rfl
    _ = replaceChar '\n' ['\\', 'n'] (escape s) := by rw [h1]
    _ = escape s := h2

theorem splitTab_ne_nil (cs : List Char) : splitTab cs ≠ [] := by
  cases cs with
  | nil => simp [splitTab]
  | cons c cs =>
    simp only [splitTab]
    cases splitTab cs with
    | nil => simp
    | cons f fs =>
      by_cases hc : c = '\t' <;> simp [hc]

/-- The number of tab-separated fields of a line is one more than its number
of tab characters. -/
theorem length_splitTab (cs : List Char) :
    (splitTab cs).length = cs.count '\t' + 1 := by
  induction cs with
  | nil => simp [splitTab]
  | cons c cs ih =>
    cases hsp : splitTab cs with
    | nil => exact absurd hsp (splitTab_ne_nil cs)
    | cons f fs =>
      rw [hsp] at ih
      by_cases hc : c = '\t'
      · subst hc
        simp [splitTab, hsp, List.count_cons_self]
        simp at ih
        omega
      · have hne : ('\t' : Char) ≠ c := fun h => hc h.symm
        simp [splitTab, hsp, hc, List.count_cons_of_ne hne]
        simp at ih
        omega

/-- Every character produced by the decimal rendering is a digit character. -/
theorem natCharsAux_digits (fuel : Nat) :
    ∀ (n : Nat) (acc : List Char),
      (∀ c ∈ acc, ∃ d, d < 10 ∧ c = digitChar d) →
      ∀ c ∈ natCharsAux fuel n acc, ∃ d, d < 10 ∧ c = digitChar d := by
  induction fuel with
  | zero => intro n acc hacc c hc; exact hacc c hc
  | succ fuel ih =>
    intro n acc hacc c hc
    have hext : ∀ x ∈ digitChar (n % 10) :: acc, ∃ d, d < 10 ∧ x = digitChar d := by
      intro x hx
      rcases List.mem_cons.mp hx with hx | hx
      · exact ⟨n % 10, Nat.mod_lt n (by omega), hx⟩
      · exact hacc x hx
    simp only [natCharsAux] at hc
    by_cases hlt : n < 10
    · rw [if_pos hlt] at hc
      exact hext c hc
    · rw [if_neg hlt] at hc
      exact ih (n / 10) (digitChar (n % 10) :: acc) hext c hc

/-- The decimal rendering of a number contains no tab character. -/
theorem tab_not_mem_natChars (n : Nat) : '\t' ∉ natChars n := by
  intro h
  obtain ⟨d, hd, heq⟩ := natCharsAux_digits (n + 1) n [] (by simp) '\t' h
  have hdig : ∀ d, d < 10 → ¬ digitChar d = '\t' := by decide
  exact hdig d hd heq.symm

/-- The True and False literals contain no tab character. -/
theorem tab_not_mem_pyBool (b : Bool) : '\t' ∉ pyBool b := by
  cases b <;> decide

/-- With every registration timestamp parsable, the per-user loop emits one
rendered line per user and no error. -/
theorem processUsers_map (db : DB) (parseTS : List Char → Option Nat) (t n : Nat) (now : Int) :
    ∀ us : List UserRow, (∀ u ∈ us, (parseTS u.user_registration).isSome = true) →
      processUsers db parseTS t n now us = (us.map (rowFor db parseTS t n now), none) := by
  intro us
  induction us with
  | nil => intro _; rfl
  | cons u us ih =>
    intro h
    have hu := h u (List.mem_cons_self u us)
    cases hp : parseTS u.user_registration with
    | none => rw [hp] at hu; simp at hu
    | some reg =>
      have hrest := ih (fun w hw => h w (List.mem_cons_of_mem u hw))
      simp [processUsers, hp, hrest, rowFor]

/-! Concrete sample data used by the witness theorems. -/

/-- A main-namespace revision. -/
def sampleRev : RevRow := ⟨100, 0⟩

/-- A later main-namespace revision. -/
def sampleRev2 : RevRow := ⟨200, 0⟩

/-- A revision outside the main namespace. -/
def sampleRevTalk : RevRow := ⟨100, 1⟩

/-- A user whose registration text parses. -/
def sampleUser : UserRow := ⟨7, ['a'], ['5']⟩

/-- A user whose registration text does not parse. -/
def badUser : UserRow := ⟨8, ['b'], ['x']⟩

/-- A data source where nothing is ever reverted. -/
def cleanDB : DB := ⟨fun _ _ => [sampleUser], fun _ => [sampleRev, sampleRev2], fun _ _ _ => none⟩

/-- A data source whose only revisions are outside the main namespace and
whose checker claims everything is reverted. -/
def talkDB : DB := ⟨fun _ _ => [sampleUser], fun _ => [sampleRevTalk], fun _ _ _ => some ⟨0⟩⟩

/-- A data source returning an unparsable user followed by a good one. -/
def mixedDB : DB := ⟨fun _ _ => [badUser, sampleUser], fun _ => [], fun _ _ _ => none⟩

/-- A window revision for the detector monotonicity witness. -/
def wrev0 : WRev := ⟨10, 0⟩

/-! Theorems for the claims. -/

/-- C1: a user's output row has productive = True iff at least n of the
user's revisions are in the main namespace, timestamped before
registration + t days, and judged not reverted by the checker at radius 15
with a cutoff 48 hours after the revision's own timestamp. -/
theorem productive_iff_count (db : DB) (t n : Nat) (now : Int) (u : UserRow) (reg : Nat) :
    (classifyUser db t n now u reg).productive = true ↔
      n ≤ (db.userRevisions u.user_id).countP (fun r =>
        decide (r.page_namespace = 0) &&
          (decide (r.rev_timestamp < reg + DAY_SECONDS * t) &&
            (db.checkRow r 15 (r.rev_timestamp + DAY_SECONDS * 2)).isNone)) := by
  have hb : ∀ a b c : Bool, ((a && b) && c) = (a && (c && b)) := by decide
  have hsat := revLoop_sat db n (queriedRevisions db u.user_id reg t) 0
  simp only [classifyUser, decide_eq_true_eq]
  rw [hsat, Nat.zero_add, queriedRevisions, List.countP_filter]
  have hfun : (fun r : RevRow =>
        isCounted db r && decide (r.rev_timestamp < reg + DAY_SECONDS * t))
      = (fun r : RevRow => decide (r.page_namespace = 0) &&
          (decide (r.rev_timestamp < reg + DAY_SECONDS * t) &&
            (db.checkRow r 15 (r.rev_timestamp + DAY_SECONDS * 2)).isNone)) := by
    funext r
    simp only [isCounted]
    exact hb _ _ _
  rw [hfun]

/-- C2: scanning stops once the counter reaches n. For n at least 1 the
final counter never exceeds n, and once a prefix of the scanned revisions
already holds n productive edits, the whole loop result (counter and every
revision handed to the revert checker) is that of the prefix alone: nothing
after the n-th productive edit is evaluated. -/
theorem early_exit (db : DB) (n : Nat) (revs xs ys : List RevRow)
    (hn : 1 ≤ n) (hsplit : revs = xs ++ ys) (hcount : n ≤ xs.countP (isCounted db)) :
    (revLoop db n revs 0).1 ≤ n ∧
      revLoop db n revs 0 = revLoop db n xs 0 ∧
      ∀ cl ∈ (revLoop db n revs 0).2, cl.1 ∈ xs := by
  subst hsplit
  have h2 := revLoop_append db n xs ys 0 (by omega) (by omega)
  refine ⟨revLoop_le db n (xs ++ ys) 0 (by omega), h2, ?_⟩
  intro cl hcl
  rw [h2] at hcl
  exact revLoop_calls_mem db n xs 0 cl hcl

/-- C2 witness: with two never-reverted content edits and n = 1, the loop
over both revisions equals the loop over the first alone, and the counter
stays at most 1. -/
theorem early_exit_witness :
    (revLoop cleanDB 1 [sampleRev, sampleRev2] 0).1 ≤ 1 ∧
      revLoop cleanDB 1 [sampleRev, sampleRev2] 0 = revLoop cleanDB 1 [sampleRev] 0 := by
  have h := early_exit cleanDB 1 [sampleRev, sampleRev2] [sampleRev] [sampleRev2]
    (by decide) rfl (by decide)
  exact ⟨h.1, h.2.1⟩

/-- C3: the censored field is True iff now minus registration is below
(t + 2) days; at t = 1, exactly 3 days elapsed gives False and one second
less gives True. -/
theorem censored_boundary (db : DB) (t n : Nat) (now : Int) (u : UserRow) (reg : Nat) :
    ((classifyUser db t n now u reg).censored = true ↔
        now - (reg : Int) < (((t + 2) * 86400 : Nat) : Int)) ∧
      (classifyUser db 1 n ((reg : Int) + 3 * 86400) u reg).censored = false ∧
      (classifyUser db 1 n ((reg : Int) + 3 * 86400 - 1) u reg).censored = true := by
  refine ⟨?_, ?_, ?_⟩
  · simp only [classifyUser, decide_eq_true_eq, DAY_SECONDS]
    constructor <;> intro h <;> (push_cast at *; omega)
  · simp only [classifyUser, DAY_SECONDS]
    rw [decide_eq_false_iff_not]
    push_cast
    omega
  · simp only [classifyUser, DAY_SECONDS]
    rw [decide_eq_true_eq]
    push_cast
    omega

/-- C4: every call the loop makes to the revert checker uses radius 15 and a
deadline exactly 48 hours after the revision's timestamp, and the productive
counter equals the number of calls that returned null. -/
theorem detector_call_contract (db : DB) (n : Nat) (revs : List RevRow) :
    (∀ cl ∈ (revLoop db n revs 0).2,
        cl.2.1 = 15 ∧ cl.2.2 = cl.1.rev_timestamp + 2 * 86400) ∧
      (revLoop db n revs 0).1 =
        (revLoop db n revs 0).2.countP
          (fun cl => (db.checkRow cl.1 cl.2.1 cl.2.2).isNone) := by
  constructor
  · intro cl hcl
    have h := revLoop_calls_shape db n revs 0 cl hcl
    refine ⟨h.1, ?_⟩
    rw [h.2]
    simp only [DAY_SECONDS]
  · have h := revLoop_fst_eq db n revs 0
    simpa using h

/-- C4 witness: the single call made for one clean content revision carries
radius 15 and the 48-hour deadline, and the counter matches the null calls. -/
theorem detector_call_contract_witness :
    ((sampleRev, 15, sampleRev.rev_timestamp + DAY_SECONDS * 2).2.1 = 15 ∧
        (sampleRev, 15, sampleRev.rev_timestamp + DAY_SECONDS * 2).2.2 =
          sampleRev.rev_timestamp + 2 * 86400) ∧
      (revLoop cleanDB 2 [sampleRev] 0).1 =
        (revLoop cleanDB 2 [sampleRev] 0).2.countP
          (fun cl => (cleanDB.checkRow cl.1 cl.2.1 cl.2.2).isNone) := by
  have h := detector_call_contract cleanDB 2 [sampleRev]
  exact ⟨h.1 (sampleRev, 15, sampleRev.rev_timestamp + DAY_SECONDS * 2) (by decide), h.2⟩

/-- C5: a user with no main-namespace revision is classified not productive
for every n at least 1, and the revert checker is never consulted. -/
theorem non_content_never_counts (db : DB) (t n : Nat) (now : Int) (u : UserRow) (reg : Nat)
    (hns : ∀ r ∈ db.userRevisions u.user_id, ¬ r.page_namespace = 0) (hn : 1 ≤ n) :
    (classifyUser db t n now u reg).productive = false ∧
      (revLoop db n (queriedRevisions db u.user_id reg t) 0).2 = [] := by
  have hq : ∀ r ∈ queriedRevisions db u.user_id reg t, ¬ r.page_namespace = 0 :=
    fun r hr => hns r (List.mem_of_mem_filter hr)
  have h0 := revLoop_nonContent db n (queriedRevisions db u.user_id reg t) 0 hq
  constructor
  · simp only [classifyUser, h0]
    rw [decide_eq_false_iff_not]
    omega
  · rw [h0]

/-- C5 witness: a user whose only revision is in namespace 1, with a checker
that calls everything reverted, is not productive and triggers no check. -/
theorem non_content_never_counts_witness :
    (classifyUser talkDB 1 1 1000 sampleUser 5).productive = false ∧
      (revLoop talkDB 1 (queriedRevisions talkDB sampleUser.user_id 5 1) 0).2 = [] :=
  non_content_never_counts talkDB 1 1 1000 sampleUser 5 (by decide) (by decide)

/-- C6 counterexample: with an unparsable first user followed by a parsable
one, the run emits no user row at all (only the header) and surfaces the
error, while the parsable user alone would have produced a row — so the
failure is not confined to the offending user's row. -/
theorem registration_error_counterexample :
    (run mixedDB parseDigits 0 10 1 1 1000).1 = [headerLine] ∧
      (run mixedDB parseDigits 0 10 1 1 1000).2 = some ['x'] ∧
      (processUsers mixedDB parseDigits 1 1 1000 [sampleUser]).1 ≠ [] := by
  refine ⟨by decide, by decide, by decide⟩

/-- C6 amended: an unparsable registration timestamp is surfaced as an error
and no row is emitted for that user, but the failure aborts the whole
remaining run — every subsequent user is dropped as well. -/
theorem registration_error_aborts_run (db : DB) (parseTS : List Char → Option Nat)
    (t n : Nat) (now : Int) (u : UserRow) (vs : List UserRow)
    (h : parseTS u.user_registration = none) :
    processUsers db parseTS t n now (u :: vs) = ([], some u.user_registration) := by
  simp [processUsers, h]

/-- C6 amended witness: the unparsable sample user aborts the run with the
offending text surfaced, dropping the following user. -/
theorem registration_error_aborts_run_witness :
    processUsers mixedDB parseDigits 1 1 1000 (badUser :: [sampleUser]) =
      ([], some badUser.user_registration) :=
  registration_error_aborts_run mixedDB parseDigits 1 1 1000 badUser [sampleUser] (by decide)

/-- C7: the report is the header line (the five field names, tab-joined, in
order) followed by exactly one row per queried user; each row is the five
fields in order, tab-separated, with booleans rendered True or False. -/
theorem report_format (db : DB) (parseTS : List Char → Option Nat)
    (sd ed n t : Nat) (now : Int)
    (h : ∀ u ∈ db.usersBetween sd ed, (parseTS u.user_registration).isSome = true) :
    (run db parseTS sd ed n t now).1 =
        headerLine :: (db.usersBetween sd ed).map (rowFor db parseTS t n now) ∧
      (run db parseTS sd ed n t now).2 = none ∧
      headerLine = "user_id".toList ++ '\t' :: ("user_name".toList ++ '\t' ::
        ("user_registration".toList ++ '\t' :: ("productive".toList ++ '\t' ::
          "censored".toList))) ∧
      (∀ r : OutputRow, renderRow r =
        natChars r.user_id ++ '\t' :: (escape r.user_name ++ '\t' ::
          (escape r.user_registration ++ '\t' :: (pyBool r.productive ++ '\t' ::
            pyBool r.censored)))) ∧
      pyBool true = ['T', 'r', 'u', 'e'] ∧ pyBool false = ['F', 'a', 'l', 's', 'e'] := by
  have hmap := processUsers_map db parseTS t n now (db.usersBetween sd ed) h
  refine ⟨?_, ?_, by decide, fun r => rfl, rfl, rfl⟩
  · simp [run, hmap]
  · simp [run, hmap]

/-- C7 witness: the clean sample database yields the header plus one row per
user and no error. -/
theorem report_format_witness :
    (run cleanDB parseDigits 0 10 1 1 1000).1 =
        headerLine :: (cleanDB.usersBetween 0 10).map (rowFor cleanDB parseDigits 1 1 1000) ∧
      (run cleanDB parseDigits 0 10 1 1 1000).2 = none := by
  have h := report_format cleanDB parseDigits 0 10 1 1 1000 (by decide)
  exact ⟨h.1, h.2.1⟩

/-- C8: escaping rewrites each literal tab to backslash-t and each literal
newline to backslash-n (and nothing else), so every rendered row splits into
exactly 5 tab-delimited fields, whatever the user_name contains. -/
theorem tsv_escaping_five_fields :
    (∀ s : List Char, escape s = (s.map escChar).flatten) ∧
      ∀ r : OutputRow, (splitTab (renderRow r)).length = 5 := by
  constructor
  · exact escape_eq_join
  · intro r
    have h1 : (natChars r.user_id).count '\t' = 0 :=
      List.count_eq_zero.mpr (tab_not_mem_natChars r.user_id)
    have h2 : (escape r.user_name).count '\t' = 0 :=
      List.count_eq_zero.mpr (tab_not_mem_escape r.user_name)
    have h3 : (escape r.user_registration).count '\t' = 0 :=
      List.count_eq_zero.mpr (tab_not_mem_escape r.user_registration)
    have h4 : (pyBool r.productive).count '\t' = 0 :=
      List.count_eq_zero.mpr (tab_not_mem_pyBool r.productive)
    have h5 : (pyBool r.censored).count '\t' = 0 :=
      List.count_eq_zero.mpr (tab_not_mem_pyBool r.censored)
    have hrow : renderRow r =
        natChars r.user_id ++ '\t' :: (escape r.user_name ++ '\t' ::
          (escape r.user_registration ++ '\t' :: (pyBool r.productive ++ '\t' ::
            pyBool r.censored))) := rfl
    rw [length_splitTab, hrow]
    simp [List.count_append, List.count_cons_self, h1, h2, h3, h4, h5]

/-- C9: the spec-modelled revert check is monotone in its bounds — enlarging
the radius or extending the deadline can never turn a non-null result into
null. -/
theorem revert_check_monotone (anc : List Nat) (w : List WRev) (r1 r2 d1 d2 : Nat)
    (hr : r1 ≤ r2) (hd : d1 ≤ d2)
    (h : (is_reverted anc w r1 d1).isSome = true) :
    (is_reverted anc w r2 d2).isSome = true := by
  induction w generalizing r1 r2 with
  | nil => simp [is_reverted] at h
  | cons x w ih =>
    cases r1 with
    | zero => simp [is_reverted] at h
    | succ k =>
      cases r2 with
      | zero => omega
      | succ m =>
        simp only [is_reverted] at h ⊢
        by_cases hdl : d1 < x.timestamp
        · rw [if_pos hdl] at h
          simp at h
        · rw [if_neg hdl] at h
          have hdl2 : ¬ d2 < x.timestamp := by omega
          rw [if_neg hdl2]
          by_cases hmem : x.state ∈ anc
          · rw [if_pos hmem]
            simp
          · rw [if_neg hmem] at h
            rw [if_neg hmem]
            exact ih k m (by omega) h

/-- C9 witness: a window whose first revision restores an ancestor state
keeps its non-null verdict when radius and deadline grow. -/
theorem revert_check_monotone_witness :
    (is_reverted [0] [wrev0] 2 20).isSome = true :=
  revert_check_monotone [0] [wrev0] 1 2 10 20 (by decide) (by decide) (by decide)

/-- C10: escape is idempotent — its output holds no literal tab or newline,
so escaping twice equals escaping once. -/
theorem escape_idempotent : ∀ s : List Char, escape (escape s) = escape s :=
  escape_escape

end PNE
